import Mathlib

/-!
Verification of the ML engine (`src/services/mlEngine.ts`) of the
upgraded-mol2 repository: linear-algebra helpers, the robust median-ratio
baseline, the regression-tree / gradient-boosting trainer, and the
guardrail predictor.

Numbers are modelled exactly over `ℚ` (JavaScript floats are rationals;
we idealize float arithmetic as exact rational arithmetic).  The only
irrational operation in the engine, the square root taken for the residual
standard deviation, is idealized over `ℝ`.  A training record
(`DataRow`) is modelled as its numeric view `String → ℚ`: the engine reads
every field through the coercion `Number(row[k])`, with missing or
non-numeric fields reading as 0.
-/

namespace MLEngine

/-- Numeric view of a loosely typed record: every access in the source goes
through `Number(row[k]) || default`. Missing/non-numeric fields are 0. -/
def DataRow : Type := String → ℚ

/-- Models the JavaScript idiom `v || d` on an already-coerced number:
`0` (and `NaN`, which the `DataRow` view already maps to 0) falls back
to the default `d`. -/
def numOr (v d : ℚ) : ℚ := if v = 0 then d else v

/-- Source function `multiply(a, b)` from mlEngine.ts: triple-loop matrix product.  The
result is sized `a.length × b[0].length` and accumulates over `k < b.length`;
the source performs no dimension check.  An out-of-range read `a[i][k]`
(which is `undefined`, making the JS entry `NaN`) is modelled by the list
default 0. -/
def multiply (a b : List (List ℚ)) : List (List ℚ) :=
  a.map (fun row =>
    (List.range (b.headD []).length).map (fun j =>
      ((List.range b.length).map (fun k => row.getD k 0 * (b.getD k []).getD j 0)).sum))

/-- The pivot clamp in `invert`: a pivot of absolute value below `1e-10`
is replaced by `1e-10` before dividing. -/
def clampPivot (p : ℚ) : ℚ := if |p| < 1 / 10 ^ 10 then 1 / 10 ^ 10 else p

/-- One outer iteration (index `i`) of the Gauss-Jordan loop in `invert`:
scale row `i` of both matrices by the clamped pivot, then subtract
`factor · row i` from every other row `k`, where `factor = copy[k][i]`
is read after the scaling, exactly as the source does. -/
def invertStep (n i : ℕ) (st : List (List ℚ) × List (List ℚ)) :
    List (List ℚ) × List (List ℚ) :=
  let pivot := clampPivot ((st.1.getD i []).getD i 0)
  let copyS := st.1.mapIdx (fun idx row =>
    if idx = i then (List.range n).map (fun j => row.getD j 0 / pivot) else row)
  let identS := st.2.mapIdx (fun idx row =>
    if idx = i then (List.range n).map (fun j => row.getD j 0 / pivot) else row)
  let rowI := copyS.getD i []
  let rowIe := identS.getD i []
  let copyR := copyS.mapIdx (fun k row =>
    if k = i then row
    else (List.range n).map (fun j => row.getD j 0 - row.getD i 0 * rowI.getD j 0))
  let identR := identS.mapIdx (fun k row =>
    if k = i then row
    else (List.range n).map (fun j =>
      row.getD j 0 - (copyS.getD k []).getD i 0 * rowIe.getD j 0))
  (copyR, identR)

/-- Source function `invert(m)` from mlEngine.ts: Gauss-Jordan elimination with an identity
augmentation and clamped pivots; always returns the transformed identity. -/
def invert (m : List (List ℚ)) : List (List ℚ) :=
  let n := m.length
  let identity := (List.range n).map (fun i =>
    (List.range n).map (fun j => if i = j then (1 : ℚ) else 0))
  ((List.range n).foldl (fun st i => invertStep n i st) (m, identity)).2

/-- Stable ascending insertion used to model `values.sort((a,b) => a-b)`. -/
def insertSorted (a : ℚ) : List ℚ → List ℚ
  | [] => [a]
  | b :: l => if a ≤ b then a :: b :: l else b :: insertSorted a l

/-- Ascending numeric sort, modelling `[...arr].sort((a,b) => a-b)`. -/
def sortAsc (l : List ℚ) : List ℚ := l.foldr insertSorted []

/-- Deduplication of a sorted list, modelling `Array.from(new Set(sorted))`. -/
def dedupSorted : List ℚ → List ℚ
  | [] => []
  | [a] => [a]
  | a :: b :: l => if a = b then dedupSorted (b :: l) else a :: dedupSorted (b :: l)

/-- Source function `median(arr)` from mlEngine.ts: 0 on empty input, middle element of the
sorted copy for odd length, average of the two middle elements otherwise. -/
def median (arr : List ℚ) : ℚ :=
  if arr.length = 0 then 0
  else
    let s := sortAsc arr
    let mid := arr.length / 2
    if arr.length % 2 ≠ 0 then s.getD mid 0
    else (s.getD (mid - 1) 0 + s.getD mid 0) / 2

/-- Source function `calculateRobustBaselineCoeffs(data)` from mlEngine.ts: per record,
ratio = target / (max(1, days||1) · max(1, count||1)) for the two raw
driver counters 笔记数 and 点赞数; returns the two medians floored at 0. -/
def calculateRobustBaselineCoeffs (data : List DataRow) : List ℚ :=
  let ratiosNotes := data.map (fun row =>
    let yieldTotal := numOr (row "采集量") 0
    let days := max 1 (numOr (row "采集天数") 1)
    let notesTotal := max 1 (numOr (row "笔记数") 1)
    yieldTotal / (days * notesTotal))
  let ratiosLikes := data.map (fun row =>
    let yieldTotal := numOr (row "采集量") 0
    let days := max 1 (numOr (row "采集天数") 1)
    let likesTotal := max 1 (numOr (row "点赞数") 1)
    yieldTotal / (days * likesTotal))
  [max 0 (median ratiosNotes), max 0 (median ratiosLikes)]

/-- Modelled from the spec (for comparison with the implementation): the
claim's formula `ratio = target / (days · max(1, count))`, which guards the
driver count but not the day count. -/
def specBaselineCoeffs (data : List DataRow) : List ℚ :=
  let ratiosNotes := data.map (fun row =>
    (numOr (row "采集量") 0) / ((numOr (row "采集天数") 1) * max 1 (numOr (row "笔记数") 1)))
  let ratiosLikes := data.map (fun row =>
    (numOr (row "采集量") 0) / ((numOr (row "采集天数") 1) * max 1 (numOr (row "点赞数") 1)))
  [max 0 (median ratiosNotes), max 0 (median ratiosLikes)]

/-- Source function `calculateMAE` from mlEngine.ts. -/
def calculateMAE (yTrue yPred : List ℚ) : ℚ :=
  if yTrue.length = 0 then 0
  else ((yTrue.zip yPred).map (fun p => |p.1 - p.2|)).sum / yTrue.length

/-- Source function `calculateR2` from mlEngine.ts. -/
def calculateR2 (yTrue yPred : List ℚ) : ℚ :=
  if yTrue.length = 0 then 0
  else
    let meanY := yTrue.sum / yTrue.length
    let ssTot := (yTrue.map (fun v => (v - meanY) ^ 2)).sum
    let ssRes := ((yTrue.zip yPred).map (fun p => (p.1 - p.2) ^ 2)).sum
    if ssTot = 0 then 0 else 1 - ssRes / ssTot

/-- The `Tree` record of types.ts, as the tagged variant it encodes:
a node with `featureIndex = -1` carries only `leftValue` (a leaf); any
other node carries a threshold and two children. -/
inductive Tree : Type
  | leaf (value : ℚ)
  | split (featureIndex : ℕ) (threshold : ℚ) (left right : Tree)

/-- Source function `predictTree(tree, x)` from mlEngine.ts: descend comparing
`x[featureIndex] ≤ threshold` until a leaf. -/
def predictTree : Tree → List ℚ → ℚ
  | Tree.leaf v, _ => v
  | Tree.split f θ l r, x => if x.getD f 0 ≤ θ then predictTree l x else predictTree r x

/-- The leaf value emitted by `trainRegressionTree`:
`y.reduce(...) / Math.max(1, n)`. -/
def leafValue (d : List (List ℚ × ℚ)) : ℚ :=
  (d.map Prod.snd).sum / (max 1 d.length : ℕ)

/-- The column of feature `f` over the node's rows (`X.map(row => row[f])`). -/
def featValues (d : List (List ℚ × ℚ)) (f : ℕ) : List ℚ :=
  d.map (fun p => p.1.getD f 0)

/-- Candidate thresholds of feature `f`: midpoints of adjacent pairs of the
sorted distinct observed values. -/
def midpoints (d : List (List ℚ × ℚ)) (f : ℕ) : List ℚ :=
  let u := dedupSorted (sortAsc (featValues d f))
  (u.zip u.tail).map (fun p => (p.1 + p.2) / 2)

/-- All split candidates in the scan order of the source's two nested loops:
features `0, …, featureCount-1` outer, ascending thresholds inner. -/
def candidates (d : List (List ℚ × ℚ)) (featureCount : ℕ) : List (ℕ × ℚ) :=
  (List.range featureCount).flatMap (fun f => (midpoints d f).map (fun θ => (f, θ)))

/-- The score of one candidate split: `none` when a partition is empty (the
source's `continue`), otherwise the total sum of squared errors of the two
partitions around their own means. -/
def splitSSE (d : List (List ℚ × ℚ)) (f : ℕ) (θ : ℚ) : Option ℚ :=
  let leftY := (d.filter (fun p => decide (p.1.getD f 0 ≤ θ))).map Prod.snd
  let rightY := (d.filter (fun p => !decide (p.1.getD f 0 ≤ θ))).map Prod.snd
  if leftY.length = 0 ∨ rightY.length = 0 then none
  else
    let leftMean := leftY.sum / leftY.length
    let rightMean := rightY.sum / rightY.length
    some ((leftY.map (fun v => (v - leftMean) ^ 2)).sum +
          (rightY.map (fun v => (v - rightMean) ^ 2)).sum)

/-- One step of the best-split scan: keep the incumbent unless the candidate
is valid and has strictly smaller SSE (`mse < minMSE` with `minMSE`
initially `Infinity`, i.e. a `none` incumbent always loses to a valid
candidate). -/
def stepBest (d : List (List ℚ × ℚ)) (best : Option (ℕ × ℚ × ℚ)) (c : ℕ × ℚ) :
    Option (ℕ × ℚ × ℚ) :=
  match splitSSE d c.1 c.2 with
  | none => best
  | some m =>
    match best with
    | none => some (c.1, c.2, m)
    | some b => if m < b.2.2 then some (c.1, c.2, m) else best

/-- The `(bestFeature, bestThreshold)` selection of `trainRegressionTree`;
`none` models `bestFeature === -1`. -/
def bestSplit (d : List (List ℚ × ℚ)) (featureCount : ℕ) : Option (ℕ × ℚ) :=
  (((candidates d featureCount).foldl (stepBest d) none)).map (fun b => (b.1, b.2.1))

/-- The recursion of `trainRegressionTree`, with the remaining depth budget
`maxDepth - depth` made explicit as structural fuel: fuel 0 is exactly the
source's `depth >= maxDepth` stop. -/
def buildTree (featureCount : ℕ) : ℕ → List (List ℚ × ℚ) → Tree
  | 0, d => Tree.leaf (leafValue d)
  | fuel + 1, d =>
    if d.length ≤ 5 then Tree.leaf (leafValue d)
    else
      match bestSplit d featureCount with
      | none => Tree.leaf (leafValue d)
      | some (f, θ) =>
        Tree.split f θ
          (buildTree featureCount fuel (d.filter (fun p => decide (p.1.getD f 0 ≤ θ))))
          (buildTree featureCount fuel (d.filter (fun p => !decide (p.1.getD f 0 ≤ θ))))

/-- Source function `trainRegressionTree(X, y, depth, maxDepth, featureCount)` from
mlEngine.ts, over the row list `d = X.zip y`. -/
def trainRegressionTree (d : List (List ℚ × ℚ)) (depth maxDepth featureCount : ℕ) : Tree :=
  buildTree featureCount (maxDepth - depth) d

/-- Number of split nodes on the longest root-to-leaf path. -/
def splitDepth : Tree → ℕ
  | Tree.leaf _ => 0
  | Tree.split _ _ l r => 1 + max (splitDepth l) (splitDepth r)

/-- The values stored at the leaves of a tree. -/
def leafValuesOf : Tree → List ℚ
  | Tree.leaf v => [v]
  | Tree.split _ _ l r => leafValuesOf l ++ leafValuesOf r

/-- Every leaf of the tree carries the mean of the targets of exactly the
training rows that reach it (descending by the same `≤ threshold`
comparisons `predictTree` uses). -/
def leavesAreMeans : Tree → List (List ℚ × ℚ) → Prop
  | Tree.leaf v, d => v = leafValue d
  | Tree.split f θ l r, d =>
    leavesAreMeans l (d.filter (fun p => decide (p.1.getD f 0 ≤ θ))) ∧
    leavesAreMeans r (d.filter (fun p => !decide (p.1.getD f 0 ≤ θ)))

/-- A tree that is a single leaf (the source's `featureIndex === -1`). -/
def isLeafNode (t : Tree) : Prop := ∃ v, t = Tree.leaf v

/-- Per-row residuals `y - currentPreds`. -/
def resid (y preds : List ℚ) : List ℚ := (y.zip preds).map (fun p => p.1 - p.2)

/-- Training sum of squared errors of a prediction vector. -/
def sse (y preds : List ℚ) : ℚ := ((resid y preds).map (fun v => v ^ 2)).sum

/-- One boosting round of `trainGBDT`: fit a tree to the residuals, then
update every running prediction by `lr · predictTree(tree, row)`. -/
def boostRound (X : List (List ℚ)) (y : List ℚ) (lr : ℚ) (maxDepth featureCount : ℕ)
    (preds : List ℚ) : Tree × List ℚ :=
  let residuals := resid y preds
  let tree := trainRegressionTree (X.zip residuals) 0 maxDepth featureCount
  (tree, (preds.zip X).map (fun p => p.1 + lr * predictTree tree p.2))

/-- The `nEstimators` boosting rounds of `trainGBDT`, returning the fitted
trees and the final running predictions. -/
def boostLoop (X : List (List ℚ)) (y : List ℚ) (lr : ℚ) (maxDepth featureCount : ℕ) :
    ℕ → List ℚ → List Tree × List ℚ
  | 0, preds => ([], preds)
  | n + 1, preds =>
    let r := boostRound X y lr maxDepth featureCount preds
    let rest := boostLoop X y lr maxDepth featureCount n r.2
    (r.1 :: rest.1, rest.2)

/-- The feature matrix built by `trainGBDT`:
`data.map(row => featureNames.map(f => Number(row[f]) || 0))`. -/
def gbdtX (data : List DataRow) (featureNames : List String) : List (List ℚ) :=
  data.map (fun row => featureNames.map (fun f => numOr (row f) 0))

/-- The target vector built by `trainGBDT`: `Number(row[target]) || 0`. -/
def gbdtY (data : List DataRow) (targetName : String) : List ℚ :=
  data.map (fun row => numOr (row targetName) 0)

/-- The running-prediction vector of `trainGBDT` after `i` boosting rounds,
starting from every row at `mean(y)`. -/
def gbdtPredsAfter (data : List DataRow) (featureNames : List String)
    (targetName : String) (lr : ℚ) (maxDepth : ℕ) (i : ℕ) : List ℚ :=
  let y := gbdtY data targetName
  (boostLoop (gbdtX data featureNames) y lr maxDepth featureNames.length i
    (List.replicate y.length (y.sum / (y.length : ℚ)))).2

/-- The trained GBDT artifact returned by `trainGBDT` (the `type` and
`metrics` fields added by callers are irrelevant to the engine). The stored
`residualStd` is idealized as the real square root. -/
structure GBDTParams : Type where
  initialMean : ℚ
  learningRate : ℚ
  trees : List Tree
  residualStd : ℝ
  featureNames : List String
  baselineCoeffs : List ℚ

/-- Source function `trainGBDT(data, featureNames, targetName, nEstimators, lr, maxDepth)`
from mlEngine.ts. -/
noncomputable def trainGBDT (data : List DataRow) (featureNames : List String)
    (targetName : String) (nEstimators : ℕ) (lr : ℚ) (maxDepth : ℕ) : GBDTParams :=
  let X := gbdtX data featureNames
  let y := gbdtY data targetName
  let baselineCoeffs := calculateRobustBaselineCoeffs data
  let initialMean := y.sum / (y.length : ℚ)
  let fit := boostLoop X y lr maxDepth featureNames.length nEstimators
    (List.replicate y.length initialMean)
  let residualVariance := sse y fit.2 / (max 1 (y.length - 1) : ℕ)
  { initialMean := initialMean
    learningRate := lr
    trees := fit.1
    residualStd := Real.sqrt (max 0 (residualVariance : ℝ))
    featureNames := featureNames
    baselineCoeffs := baselineCoeffs }

/-- The `GuardrailOptions` record of mlEngine.ts. -/
structure GuardrailOptions : Type where
  enabled : Bool
  lowPercent : ℚ
  highPercent : ℚ

/-- The record returned by `predictGBDT`. -/
structure PredictOut : Type where
  mean : ℚ
  lowerBound : ℝ
  upperBound : ℝ
  isClipped : Bool

/-- The raw ensemble prediction of `predictGBDT`:
`initialMean + Σ learningRate · predictTree(tree, x)`. -/
def predictRaw (m : GBDTParams) (x : List ℚ) : ℚ :=
  m.trees.foldl (fun acc t => acc + m.learningRate * predictTree t x) m.initialMean

/-- Source function `predictGBDT(model, row, guardrail)` from mlEngine.ts: raw ensemble
prediction, conditional guardrail clamp against the robust baseline, and a
`± 1.28 · residualStd` interval with the lower bound floored at 0. -/
noncomputable def predictGBDT (m : GBDTParams) (row : DataRow)
    (g : GuardrailOptions) : PredictOut :=
  let x := m.featureNames.map (fun f => numOr (row f) 0)
  let gbdtDaily := predictRaw m x
  let clip : ℚ × Bool :=
    if g.enabled then
      let kNotes := m.baselineCoeffs.getD 0 0
      let kLikes := m.baselineCoeffs.getD 1 0
      let notesTotal := numOr (row "笔记数") 0
      let likesTotal := numOr (row "点赞数") 0
      let baselineDaily := (kNotes * notesTotal + kLikes * likesTotal) / 2
      let minDaily := baselineDaily * (g.lowPercent / 100)
      let maxDaily := baselineDaily * (g.highPercent / 100)
      if gbdtDaily < minDaily then (minDaily, true)
      else if gbdtDaily > maxDaily then (maxDaily, true)
      else (gbdtDaily, false)
    else (gbdtDaily, false)
  let margin : ℝ := 1.28 * m.residualStd
  { mean := clip.1
    lowerBound := max 0 ((clip.1 : ℝ) - margin)
    upperBound := (clip.1 : ℝ) + margin
    isClipped := clip.2 }

/-! ## Concrete data used by witnesses and counterexamples -/

/-- A record with half a collection day: target 1, days 1/2, both driver
counters 1. -/
def rowHalf : DataRow := fun s =>
  if s = "采集量" then 1
  else if s = "采集天数" then 1 / 2
  else if s = "笔记数" then 1
  else if s = "点赞数" then 1 else 0

/-- The guardrail scenario row: countA (笔记数) = 100, countB (点赞数) = 50. -/
def rowCounts : DataRow := fun s =>
  if s = "笔记数" then 100 else if s = "点赞数" then 50 else 0

/-- Guardrail configuration of the scenario: enabled, band 30% – 170%. -/
def guard170 : GuardrailOptions := { enabled := true, lowPercent := 30, highPercent := 170 }

/-- A model whose raw ensemble prediction is the constant 5 and whose
baseline coefficients are kA = 0.01, kB = 0.02. -/
def modelRaw5 : GBDTParams :=
  { initialMean := 5, learningRate := 1 / 10, trees := [], residualStd := 0
    featureNames := [], baselineCoeffs := [1 / 100, 1 / 50] }

/-- A model whose raw ensemble prediction is the constant 1 and whose
baseline coefficients are kA = 0.01, kB = 0.02. -/
def modelRaw1 : GBDTParams :=
  { initialMean := 1, learningRate := 1 / 10, trees := [], residualStd := 0
    featureNames := [], baselineCoeffs := [1 / 100, 1 / 50] }

/-- A training record with feature value `a` and target value `b`. -/
def mkRowFT (a b : ℚ) : DataRow := fun s => if s = "f" then a else if s = "t" then b else 0

/-- Six training records over one feature: feature 0 with target 0 three
times, feature 1 with target 6 three times. -/
def data6 : List DataRow :=
  [mkRowFT 0 0, mkRowFT 0 0, mkRowFT 0 0, mkRowFT 1 6, mkRowFT 1 6, mkRowFT 1 6]

/-- The six training rows of `data6` as (features, target) pairs. -/
def d6p : List (List ℚ × ℚ) :=
  [([0], 0), ([0], 0), ([0], 0), ([1], 6), ([1], 6), ([1], 6)]

/-! ## Helper lemmas -/

lemma mapIdx_forall_mem {α β : Type} (p : β → Prop) (l : List α) (f : ℕ → α → β)
    (h : ∀ i a, a ∈ l → p (f i a)) : ∀ b ∈ l.mapIdx f, p b := by
  intro b hb
  rw [List.mapIdx_eq_enum_map] at hb
  obtain ⟨⟨i, a⟩, ha, rfl⟩ := List.mem_map.mp hb
  obtain ⟨hi, hA⟩ := List.mem_enum ha
  rw [hA]
  exact h i _ (List.getElem_mem hi)

lemma invertStep_snd_shape (n i : ℕ) (st : List (List ℚ) × List (List ℚ))
    (h1 : st.2.length = n) (h2 : ∀ r ∈ st.2, r.length = n) :
    (invertStep n i st).2.length = n ∧ ∀ r ∈ (invertStep n i st).2, r.length = n := by
  have gen : ∀ (l : List (List ℚ)) (f : ℕ → List ℚ → List ℚ),
      (∀ k r, r ∈ l → r.length = n → (f k r).length = n) →
      (∀ r ∈ l, r.length = n) → ∀ r ∈ l.mapIdx f, r.length = n := by
    intro l f hf hl
    refine mapIdx_forall_mem _ _ _ ?_
    intro k a ha
    exact hf k a ha (hl a ha)
  unfold invertStep
  dsimp only
  constructor
  · simp [h1]
  · apply gen
    · intro k r _ hrn
      by_cases hk : k = i
      · simpa [hk] using hrn
      · simp [hk]
    · apply gen
      · intro k r _ hrn
        by_cases hk : k = i
        · simp [hk]
        · simpa [hk] using hrn
      · exact h2

lemma clampPivot_ne_zero (p : ℚ) : clampPivot p ≠ 0 := by
  unfold clampPivot
  split_ifs with h
  · norm_num
  · intro hp
    rw [hp] at h
    norm_num at h

/-! ## Claim theorems -/

/-- C8: `invert` is total and never rejects its input: for every square
matrix it returns a matrix of the same dimensions, and the pivot used for
division is always the clamped pivot, which is never zero, so elimination
always completes with well-defined divisions. -/
theorem invert_total_pivot_safe (m : List (List ℚ))
    (_hsq : ∀ r ∈ m, r.length = m.length) :
    (invert m).length = m.length ∧ (∀ r ∈ invert m, r.length = m.length) ∧
    (∀ p : ℚ, clampPivot p ≠ 0) := by
  have key : ∀ (l : List ℕ) (st : List (List ℚ) × List (List ℚ)),
      st.2.length = m.length → (∀ r ∈ st.2, r.length = m.length) →
      ((l.foldl (fun st i => invertStep m.length i st) st).2.length = m.length ∧
        ∀ r ∈ (l.foldl (fun st i => invertStep m.length i st) st).2,
          r.length = m.length) := by
    intro l
    induction l with
    | nil => intro st h1 h2; exact ⟨h1, h2⟩
    | cons i l ih =>
      intro st h1 h2
      obtain ⟨h1', h2'⟩ := invertStep_snd_shape m.length i st h1 h2
      exact ih _ h1' h2'
  have init1 : ((List.range m.length).map (fun i =>
      (List.range m.length).map (fun j => if i = j then (1 : ℚ) else 0))).length
      = m.length := by simp
  have init2 : ∀ r ∈ (List.range m.length).map (fun i =>
      (List.range m.length).map (fun j => if i = j then (1 : ℚ) else 0)),
      r.length = m.length := by
    intro r hr
    obtain ⟨i, _, rfl⟩ := List.mem_map.mp hr
    simp
  obtain ⟨hA, hB⟩ := key (List.range m.length) (m, _) init1 init2
  exact ⟨hA, hB, clampPivot_ne_zero⟩

/-- Witness for C8 at the concrete singular input `[[0]]`. -/
theorem invert_total_pivot_safe_witness :
    (invert [[(0 : ℚ)]]).length = 1 ∧
    (∀ r ∈ invert [[(0 : ℚ)]], r.length = 1) ∧
    (∀ p : ℚ, clampPivot p ≠ 0) := by
  have h := invert_total_pivot_safe [[(0 : ℚ)]] (by intro r hr; simp at hr; simp [hr])
  simpa using h

/-- C7 counterexample: `multiply` performs no dimension check.  For
`A = [[1]]` (one column) and `B = [[2],[3]]` (two rows) the shapes are
incompatible, yet `multiply` returns the ordinary matrix `[[2]]`
(in JavaScript the entry is `NaN`): there is no `DimensionMismatch`
failure. -/
theorem multiply_no_dimension_check_counterexample :
    ([[(1 : ℚ)]].headD []).length ≠ [[(2 : ℚ)], [3]].length ∧
    multiply [[(1 : ℚ)]] [[(2 : ℚ)], [3]] = [[2]] := by
  constructor
  · simp
  · norm_num [multiply, List.range_succ]

/-- C7 (amended): `multiply` never fails — for any `A` and nonempty `B`,
whatever their shapes, it totally returns an `A.length × B[0].length`
matrix (whose entries are silently garbage when the shapes mismatch),
rather than failing with a DimensionMismatch error. -/
theorem multiply_total_shape (a b : List (List ℚ)) (_hb : b ≠ []) :
    (multiply a b).length = a.length ∧
    ∀ r ∈ multiply a b, r.length = (b.headD []).length := by
  constructor
  · simp [multiply]
  · intro r hr
    obtain ⟨row, _, rfl⟩ := List.mem_map.mp hr
    simp

/-- Witness for C7's amended theorem at a concrete mismatched input. -/
theorem multiply_total_shape_witness :
    (multiply [[(1 : ℚ)]] [[(2 : ℚ)], [3]]).length = 1 ∧
    ∀ r ∈ multiply [[(1 : ℚ)]] [[(2 : ℚ)], [3]], r.length = 1 := by
  have h := multiply_total_shape [[(1 : ℚ)]] [[(2 : ℚ)], [3]] (by simp)
  simpa using h

/-- C6: for every model and input row the returned interval is
`mean ± 1.28 · residualStd`; the lower bound is additionally floored at 0
(hence never negative) while the upper bound has no floor. -/
theorem predict_interval_bounds (m : GBDTParams) (row : DataRow) (g : GuardrailOptions) :
    (predictGBDT m row g).lowerBound
      = max 0 (((predictGBDT m row g).mean : ℝ) - 1.28 * m.residualStd) ∧
    (predictGBDT m row g).upperBound
      = ((predictGBDT m row g).mean : ℝ) + 1.28 * m.residualStd ∧
    0 ≤ (predictGBDT m row g).lowerBound := by
  refine ⟨rfl, rfl, ?_⟩
  exact le_max_left 0 _

/-- C10: `trainGBDT` is deterministic — two runs on equal datasets, feature
names, target, round count, learning rate and depth return models that are
identical field by field (initial mean, tree sequence, residual standard
deviation, baseline coefficients); the embedding of the training procedure
is a pure function because the source draws no randomness. -/
theorem trainGBDT_deterministic (d1 d2 : List DataRow) (fn1 fn2 : List String)
    (tn1 tn2 : String) (n1 n2 : ℕ) (lr1 lr2 : ℚ) (md1 md2 : ℕ)
    (hd : d1 = d2) (hf : fn1 = fn2) (ht : tn1 = tn2) (hn : n1 = n2)
    (hl : lr1 = lr2) (hm : md1 = md2) :
    (trainGBDT d1 fn1 tn1 n1 lr1 md1).initialMean
        = (trainGBDT d2 fn2 tn2 n2 lr2 md2).initialMean ∧
    (trainGBDT d1 fn1 tn1 n1 lr1 md1).trees
        = (trainGBDT d2 fn2 tn2 n2 lr2 md2).trees ∧
    (trainGBDT d1 fn1 tn1 n1 lr1 md1).residualStd
        = (trainGBDT d2 fn2 tn2 n2 lr2 md2).residualStd ∧
    (trainGBDT d1 fn1 tn1 n1 lr1 md1).baselineCoeffs
        = (trainGBDT d2 fn2 tn2 n2 lr2 md2).baselineCoeffs ∧
    (trainGBDT d1 fn1 tn1 n1 lr1 md1).learningRate
        = (trainGBDT d2 fn2 tn2 n2 lr2 md2).learningRate ∧
    (trainGBDT d1 fn1 tn1 n1 lr1 md1).featureNames
        = (trainGBDT d2 fn2 tn2 n2 lr2 md2).featureNames := by
  subst hd hf ht hn hl hm
  exact ⟨rfl, rfl, rfl, rfl, rfl, rfl⟩

/-- Witness for C10 at a concrete run repeated twice. -/
theorem trainGBDT_deterministic_witness :
    (trainGBDT [] ["f"] "t" 30 (1 / 10) 4).initialMean
        = (trainGBDT [] ["f"] "t" 30 (1 / 10) 4).initialMean ∧
    (trainGBDT [] ["f"] "t" 30 (1 / 10) 4).trees
        = (trainGBDT [] ["f"] "t" 30 (1 / 10) 4).trees ∧
    (trainGBDT [] ["f"] "t" 30 (1 / 10) 4).residualStd
        = (trainGBDT [] ["f"] "t" 30 (1 / 10) 4).residualStd ∧
    (trainGBDT [] ["f"] "t" 30 (1 / 10) 4).baselineCoeffs
        = (trainGBDT [] ["f"] "t" 30 (1 / 10) 4).baselineCoeffs ∧
    (trainGBDT [] ["f"] "t" 30 (1 / 10) 4).learningRate
        = (trainGBDT [] ["f"] "t" 30 (1 / 10) 4).learningRate ∧
    (trainGBDT [] ["f"] "t" 30 (1 / 10) 4).featureNames
        = (trainGBDT [] ["f"] "t" 30 (1 / 10) 4).featureNames :=
  trainGBDT_deterministic [] [] ["f"] ["f"] "t" "t" 30 30 (1 / 10) (1 / 10) 4 4
    rfl rfl rfl rfl rfl rfl

/-- C5 counterexample: for the single record `rowHalf` (target 1, days 1/2,
both counters 1) the claim's formula `target / (days · max(1, count))` gives
the median ratio 2 for both drivers, but the code also guards the day count
with `max(1, …)` and returns the coefficients `[1, 1]`. -/
theorem baseline_coeffs_day_guard_counterexample :
    calculateRobustBaselineCoeffs [rowHalf] = [1, 1] ∧
    specBaselineCoeffs [rowHalf] = [2, 2] ∧
    calculateRobustBaselineCoeffs [rowHalf] ≠ specBaselineCoeffs [rowHalf] := by
  have e1 : rowHalf "采集量" = 1 := rfl
  have e2 : rowHalf "采集天数" = 1 / 2 := rfl
  have e3 : rowHalf "笔记数" = 1 := rfl
  have e4 : rowHalf "点赞数" = 1 := rfl
  refine ⟨?_, ?_, ?_⟩
  · norm_num [calculateRobustBaselineCoeffs, e1, e2, e3, e4, numOr, median,
      sortAsc, insertSorted, max_def]
  · norm_num [specBaselineCoeffs, e1, e2, e3, e4, numOr, median,
      sortAsc, insertSorted, max_def]
  · have h1 : calculateRobustBaselineCoeffs [rowHalf] = [1, 1] := by
      norm_num [calculateRobustBaselineCoeffs, e1, e2, e3, e4, numOr, median,
        sortAsc, insertSorted, max_def]
    have h2 : specBaselineCoeffs [rowHalf] = [2, 2] := by
      norm_num [specBaselineCoeffs, e1, e2, e3, e4, numOr, median,
        sortAsc, insertSorted, max_def]
    rw [h1, h2]
    norm_num

/-- C5 (amended): `calculateRobustBaselineCoeffs` returns exactly two
coefficients; for each of the two designated raw driver counters the
coefficient is the median over all records of the ratio
`target / (max(1, days) · max(1, count))` floored at 0, so both returned
coefficients are always non-negative. -/
theorem baseline_coeffs_amended (data : List DataRow) :
    calculateRobustBaselineCoeffs data =
      [max 0 (median (data.map (fun row =>
          numOr (row "采集量") 0 /
            (max 1 (numOr (row "采集天数") 1) * max 1 (numOr (row "笔记数") 1))))),
       max 0 (median (data.map (fun row =>
          numOr (row "采集量") 0 /
            (max 1 (numOr (row "采集天数") 1) * max 1 (numOr (row "点赞数") 1)))))] ∧
    (calculateRobustBaselineCoeffs data).length = 2 ∧
    ∀ c ∈ calculateRobustBaselineCoeffs data, 0 ≤ c := by
  refine ⟨rfl, rfl, ?_⟩
  intro c hc
  unfold calculateRobustBaselineCoeffs at hc
  simp only [List.mem_cons, List.not_mem_nil, or_false] at hc
  rcases hc with h | h
  · rw [h]; exact le_max_left 0 _
  · rw [h]; exact le_max_left 0 _

/-- C1: `predictGBDT` with the guardrail disabled passes the raw ensemble
prediction through with `clipped = false`; with it enabled, the baseline is
`(kA·countA + kB·countB)/2`, the band is
`[baseline·lowPercent/100, baseline·highPercent/100]`, a raw prediction
below the band is clamped to the lower bound and one above it to the upper
bound (both with `clipped = true`), and a raw prediction inside the band
passes through with `clipped = false`. -/
theorem predictGBDT_guardrail_clamp (m : GBDTParams) (row : DataRow)
    (g : GuardrailOptions) (kA kB raw baseline lo hi : ℚ)
    (hk : m.baselineCoeffs = [kA, kB])
    (hraw : raw = predictRaw m (m.featureNames.map (fun f => numOr (row f) 0)))
    (hbase : baseline = (kA * numOr (row "笔记数") 0 + kB * numOr (row "点赞数") 0) / 2)
    (hlo : lo = baseline * (g.lowPercent / 100))
    (hhi : hi = baseline * (g.highPercent / 100)) :
    (g.enabled = false →
      (predictGBDT m row g).mean = raw ∧ (predictGBDT m row g).isClipped = false) ∧
    (g.enabled = true → lo ≤ hi →
      ((raw < lo →
          (predictGBDT m row g).mean = lo ∧ (predictGBDT m row g).isClipped = true) ∧
       (raw > hi →
          (predictGBDT m row g).mean = hi ∧ (predictGBDT m row g).isClipped = true) ∧
       (lo ≤ raw → raw ≤ hi →
          (predictGBDT m row g).mean = raw ∧ (predictGBDT m row g).isClipped = false))) := by
  subst hraw hbase hlo hhi
  unfold predictGBDT
  dsimp only
  rw [hk]
  simp only [List.getD_cons_zero, List.getD_cons_succ]
  constructor
  · intro hG
    rw [hG]
    simp
  · intro hG hband
    rw [hG]
    simp only [if_pos rfl, if_true]
    refine ⟨?_, ?_, ?_⟩
    · intro hlt
      rw [if_pos hlt]
      exact ⟨rfl, rfl⟩
    · intro hgt
      have hnlt : ¬ predictRaw m (List.map (fun f => numOr (row f) 0) m.featureNames) <
          (kA * numOr (row "笔记数") 0 + kB * numOr (row "点赞数") 0) / 2 *
            (g.lowPercent / 100) := by
        push_neg
        calc (kA * numOr (row "笔记数") 0 + kB * numOr (row "点赞数") 0) / 2 *
              (g.lowPercent / 100) ≤ _ := hband
          _ ≤ _ := le_of_lt hgt
      rw [if_neg hnlt, if_pos hgt]
      exact ⟨rfl, rfl⟩
    · intro hge hle
      rw [if_neg (not_lt.mpr hge), if_neg (not_lt.mpr hle)]
      exact ⟨rfl, rfl⟩

/-- Witness for C1: the spec's guardrail scenario. With kA = 0.01,
kB = 0.02, countA = 100, countB = 50 the baseline is 1 and the band is
[0.3, 1.7]; a raw prediction 5 clips to 1.7 with clipped = true and a raw
prediction 1 passes through with clipped = false. -/
theorem predictGBDT_guardrail_scenario :
    (predictGBDT modelRaw5 rowCounts guard170).mean = 17 / 10 ∧
    (predictGBDT modelRaw5 rowCounts guard170).isClipped = true ∧
    (predictGBDT modelRaw1 rowCounts guard170).mean = 1 ∧
    (predictGBDT modelRaw1 rowCounts guard170).isClipped = false := by
  have e3 : rowCounts "笔记数" = 100 := rfl
  have e4 : rowCounts "点赞数" = 50 := rfl
  have hb5 : modelRaw5.baselineCoeffs = [1 / 100, 1 / 50] := rfl
  have hb1 : modelRaw1.baselineCoeffs = [1 / 100, 1 / 50] := rfl
  have hraw5 : predictRaw modelRaw5
      (modelRaw5.featureNames.map (fun f => numOr (rowCounts f) 0)) = 5 := rfl
  have hraw1 : predictRaw modelRaw1
      (modelRaw1.featureNames.map (fun f => numOr (rowCounts f) 0)) = 1 := rfl
  have h5 := predictGBDT_guardrail_clamp modelRaw5 rowCounts guard170
    (1 / 100) (1 / 50) 5
    ((1 / 100 * numOr (rowCounts "笔记数") 0 + 1 / 50 * numOr (rowCounts "点赞数") 0) / 2)
    ((1 / 100 * numOr (rowCounts "笔记数") 0 + 1 / 50 * numOr (rowCounts "点赞数") 0) / 2 *
      (guard170.lowPercent / 100))
    ((1 / 100 * numOr (rowCounts "笔记数") 0 + 1 / 50 * numOr (rowCounts "点赞数") 0) / 2 *
      (guard170.highPercent / 100))
    hb5 hraw5.symm rfl rfl rfl
  have h1 := predictGBDT_guardrail_clamp modelRaw1 rowCounts guard170
    (1 / 100) (1 / 50) 1
    ((1 / 100 * numOr (rowCounts "笔记数") 0 + 1 / 50 * numOr (rowCounts "点赞数") 0) / 2)
    ((1 / 100 * numOr (rowCounts "笔记数") 0 + 1 / 50 * numOr (rowCounts "点赞数") 0) / 2 *
      (guard170.lowPercent / 100))
    ((1 / 100 * numOr (rowCounts "笔记数") 0 + 1 / 50 * numOr (rowCounts "点赞数") 0) / 2 *
      (guard170.highPercent / 100))
    hb1 hraw1.symm rfl rfl rfl
  have hbaseval : (1 / 100 * numOr (rowCounts "笔记数") 0 +
      1 / 50 * numOr (rowCounts "点赞数") 0) / 2 = 1 := by
    rw [e3, e4]; norm_num [numOr]
  have hloval : (1 / 100 * numOr (rowCounts "笔记数") 0 +
      1 / 50 * numOr (rowCounts "点赞数") 0) / 2 * (guard170.lowPercent / 100) = 3 / 10 := by
    rw [hbaseval]; norm_num [guard170]
  have hhival : (1 / 100 * numOr (rowCounts "笔记数") 0 +
      1 / 50 * numOr (rowCounts "点赞数") 0) / 2 * (guard170.highPercent / 100) = 17 / 10 := by
    rw [hbaseval]; norm_num [guard170]
  have hG : guard170.enabled = true := rfl
  obtain ⟨hclip5, _⟩ := (h5.2 hG (by rw [hloval, hhival]; norm_num)).2.1
    (by rw [hhival]; norm_num)
  obtain ⟨hpass1, hpass1c⟩ := (h1.2 hG (by rw [hloval, hhival]; norm_num)).2.2
    (by rw [hloval]; norm_num) (by rw [hhival]; norm_num)
  refine ⟨?_, ?_, hpass1, hpass1c⟩
  · rw [hclip5, hhival]
  · exact ((h5.2 hG (by rw [hloval, hhival]; norm_num)).2.1 (by rw [hhival]; norm_num)).2

/-! ## Regression-tree lemmas -/

lemma stepBest_eq_none_iff (d : List (List ℚ × ℚ)) (acc : Option (ℕ × ℚ × ℚ))
    (c : ℕ × ℚ) :
    stepBest d acc c = none ↔ acc = none ∧ splitSSE d c.1 c.2 = none := by
  unfold stepBest
  cases hc : splitSSE d c.1 c.2 with
  | none => simp
  | some m =>
    cases acc with
    | none => simp
    | some b =>
      by_cases hlt : m < b.2.2 <;> simp [hlt]

lemma foldl_stepBest_none_iff (d : List (List ℚ × ℚ)) :
    ∀ (cs : List (ℕ × ℚ)) (acc : Option (ℕ × ℚ × ℚ)),
      cs.foldl (stepBest d) acc = none ↔
        acc = none ∧ ∀ c ∈ cs, splitSSE d c.1 c.2 = none := by
  intro cs
  induction cs with
  | nil => intro acc; simp
  | cons c cs ih =>
    intro acc
    rw [List.foldl_cons, ih, stepBest_eq_none_iff]
    constructor
    · rintro ⟨⟨ha, hc⟩, hrest⟩
      exact ⟨ha, by
        intro c' hc'
        rcases List.mem_cons.mp hc' with h | h
        · rw [h]; exact hc
        · exact hrest c' h⟩
    · rintro ⟨ha, hall⟩
      exact ⟨⟨ha, hall c (List.mem_cons_self c cs)⟩,
        fun c' h => hall c' (List.mem_cons_of_mem c h)⟩

lemma bestSplit_none_iff (d : List (List ℚ × ℚ)) (fc : ℕ) :
    bestSplit d fc = none ↔ ∀ c ∈ candidates d fc, splitSSE d c.1 c.2 = none := by
  unfold bestSplit
  rw [Option.map_eq_none', foldl_stepBest_none_iff]
  simp

lemma buildTree_leaves_means (fc : ℕ) :
    ∀ (fuel : ℕ) (d : List (List ℚ × ℚ)), leavesAreMeans (buildTree fc fuel d) d := by
  intro fuel
  induction fuel with
  | zero => intro d; simp [buildTree, leavesAreMeans]
  | succ n ih =>
    intro d
    simp only [buildTree]
    by_cases h5 : d.length ≤ 5
    · simp [h5, leavesAreMeans]
    · rw [if_neg h5]
      cases hbs : bestSplit d fc with
      | none => simp [leavesAreMeans]
      | some p =>
        obtain ⟨f, θ⟩ := p
        exact ⟨ih _, ih _⟩

lemma buildTree_isLeaf_iff (fc : ℕ) (fuel : ℕ) (d : List (List ℚ × ℚ)) :
    isLeafNode (buildTree fc fuel d) ↔
      (fuel = 0 ∨ d.length ≤ 5 ∨ bestSplit d fc = none) := by
  cases fuel with
  | zero => simp [buildTree, isLeafNode]
  | succ n =>
    simp only [buildTree, Nat.succ_ne_zero, false_or]
    by_cases h5 : d.length ≤ 5
    · simp [h5, isLeafNode]
    · rw [if_neg h5]
      cases hbs : bestSplit d fc with
      | none => simp [isLeafNode, h5]
      | some p =>
        obtain ⟨f, θ⟩ := p
        simp [isLeafNode, h5]

lemma splitDepth_buildTree_le (fc : ℕ) :
    ∀ (fuel : ℕ) (d : List (List ℚ × ℚ)), splitDepth (buildTree fc fuel d) ≤ fuel := by
  intro fuel
  induction fuel with
  | zero => intro d; simp [buildTree, splitDepth]
  | succ n ih =>
    intro d
    simp only [buildTree]
    by_cases h5 : d.length ≤ 5
    · simp [h5, splitDepth]
    · rw [if_neg h5]
      cases hbs : bestSplit d fc with
      | none => simp [splitDepth]
      | some p =>
        obtain ⟨f, θ⟩ := p
        simp only [splitDepth]
        have h1 := ih (d.filter (fun p => decide (p.1.getD f 0 ≤ θ)))
        have h2 := ih (d.filter (fun p => !decide (p.1.getD f 0 ≤ θ)))
        omega

lemma predictTree_mem_leafValuesOf (t : Tree) (x : List ℚ) :
    predictTree t x ∈ leafValuesOf t := by
  induction t with
  | leaf v => simp [predictTree, leafValuesOf]
  | split f θ l r ihl ihr =>
    simp only [predictTree, leafValuesOf]
    by_cases h : x.getD f 0 ≤ θ
    · rw [if_pos h]
      exact List.mem_append_left _ ihl
    · rw [if_neg h]
      exact List.mem_append_right _ ihr

/-- C3: every leaf of a tree produced by `trainRegressionTree` carries
exactly the mean of the training targets among the rows that reach that
leaf (the empty-row mean being guarded by `max(1, n)`), and a leaf is
emitted exactly when the depth budget is exhausted, the node has at most 5
samples, or no valid split candidate exists. -/
theorem tree_leaves_are_means (d : List (List ℚ × ℚ)) (depth maxDepth fc : ℕ) :
    leavesAreMeans (trainRegressionTree d depth maxDepth fc) d ∧
    (isLeafNode (trainRegressionTree d depth maxDepth fc) ↔
      (maxDepth ≤ depth ∨ d.length ≤ 5 ∨
        ∀ c ∈ candidates d fc, splitSSE d c.1 c.2 = none)) := by
  constructor
  · exact buildTree_leaves_means fc _ d
  · rw [trainRegressionTree, buildTree_isLeaf_iff, bestSplit_none_iff]
    constructor
    · rintro (h | h | h)
      · exact Or.inl (Nat.sub_eq_zero_iff_le.mp h)
      · exact Or.inr (Or.inl h)
      · exact Or.inr (Or.inr h)
    · rintro (h | h | h)
      · exact Or.inl (Nat.sub_eq_zero_iff_le.mpr h)
      · exact Or.inr (Or.inl h)
      · exact Or.inr (Or.inr h)

/-- C9: every tree returned by `trainRegressionTree` is depth-bounded — at
most `maxDepth` split nodes on any root-to-leaf path — and `predictTree`
(which is total on the inductive tree type, hence terminating) returns the
value of one of the tree's leaves for every input vector. -/
theorem tree_depth_bounded_predict_total (d : List (List ℚ × ℚ)) (maxDepth fc : ℕ) :
    splitDepth (trainRegressionTree d 0 maxDepth fc) ≤ maxDepth ∧
    ∀ x : List ℚ,
      predictTree (trainRegressionTree d 0 maxDepth fc) x ∈
        leafValuesOf (trainRegressionTree d 0 maxDepth fc) := by
  constructor
  · have h := splitDepth_buildTree_le fc (maxDepth - 0) d
    simpa [trainRegressionTree] using h
  · intro x
    exact predictTree_mem_leafValuesOf _ x

lemma foldl_stepBest_some (d : List (List ℚ × ℚ)) :
    ∀ (cs : List (ℕ × ℚ)) (acc : Option (ℕ × ℚ × ℚ)) (g : ℕ) (τ m : ℚ),
      cs.foldl (stepBest d) acc = some (g, τ, m) →
      (acc = some (g, τ, m) ∧
        ∀ c ∈ cs, ∀ m', splitSSE d c.1 c.2 = some m' → m ≤ m') ∨
      (splitSSE d g τ = some m ∧
        (∀ b, acc = some b → m < b.2.2) ∧
        ∃ pre post, cs = pre ++ (g, τ) :: post ∧
          (∀ c ∈ pre, ∀ m', splitSSE d c.1 c.2 = some m' → m < m') ∧
          (∀ c ∈ post, ∀ m', splitSSE d c.1 c.2 = some m' → m ≤ m')) := by
  intro cs
  induction cs with
  | nil =>
    intro acc g τ m h
    exact Or.inl ⟨h, by simp⟩
  | cons c cs ih =>
    intro acc g τ m h
    rw [List.foldl_cons] at h
    rcases ih (stepBest d acc c) g τ m h with ⟨hacc, hpost⟩ |
      ⟨hval, hacclt, pre, post, hdec, hpre, hpost⟩
    · -- the final best came through this step unchanged in value
      unfold stepBest at hacc
      cases hc : splitSSE d c.1 c.2 with
      | none =>
        rw [hc] at hacc
        dsimp only at hacc
        refine Or.inl ⟨hacc, ?_⟩
        intro c' hc' m' hm'
        rcases List.mem_cons.mp hc' with h' | h'
        · rw [h'] at hm'; rw [hm'] at hc; cases hc
        · exact hpost c' h' m' hm'
      | some mc =>
        rw [hc] at hacc
        dsimp only at hacc
        cases acc with
        | none =>
          -- the step accepted candidate c; it must be (g, τ, m) itself
          dsimp only at hacc
          obtain ⟨h1, h2, h3⟩ : c.1 = g ∧ c.2 = τ ∧ mc = m := by
            simpa using hacc
          refine Or.inr ⟨?_, by simp, [], cs, ?_, by simp, hpost⟩
          · rw [← h1, ← h2, ← h3]; exact hc
          · simp [← h1, ← h2]
        | some b =>
          dsimp only at hacc
          by_cases hlt : mc < b.2.2
          · rw [if_pos hlt] at hacc
            obtain ⟨h1, h2, h3⟩ : c.1 = g ∧ c.2 = τ ∧ mc = m := by
              simpa using hacc
            refine Or.inr ⟨?_, ?_, [], cs, ?_, by simp, hpost⟩
            · rw [← h1, ← h2, ← h3]; exact hc
            · intro b' hb'
              have hbb : b = b' := by injection hb'
              rw [← hbb, ← h3]
              exact hlt
            · simp [← h1, ← h2]
          · rw [if_neg hlt] at hacc
            refine Or.inl ⟨hacc, ?_⟩
            intro c' hc' m' hm'
            rcases List.mem_cons.mp hc' with h' | h'
            · rw [h'] at hm'
              have hmm : mc = m' := by
                rw [hm'] at hc
                injection hc with hh
                exact hh.symm
              have hbm : b = (g, τ, m) := by injection hacc
              have hble : b.2.2 ≤ mc := not_lt.mp hlt
              rw [hbm] at hble
              rw [← hmm]
              exact hble
            · exact hpost c' h' m' hm'
    · -- the final best was selected somewhere inside cs
      refine Or.inr ⟨hval, ?_, c :: pre, post, by rw [hdec]; rfl, ?_, hpost⟩
      · intro b hb
        subst hb
        cases hc : splitSSE d c.1 c.2 with
        | none =>
          have hstep : stepBest d (some b) c = some b := by
            unfold stepBest; rw [hc]
          exact hacclt b hstep
        | some mc =>
          by_cases hlt : mc < b.2.2
          · have hstep : stepBest d (some b) c = some (c.1, c.2, mc) := by
              unfold stepBest; rw [hc]; dsimp only; rw [if_pos hlt]
            exact lt_trans (hacclt (c.1, c.2, mc) hstep) hlt
          · have hstep : stepBest d (some b) c = some b := by
              unfold stepBest; rw [hc]; dsimp only; rw [if_neg hlt]
            exact hacclt b hstep
      · intro c' hc' m' hm'
        rcases List.mem_cons.mp hc' with h' | h'
        · -- c' is the head candidate c, scanned before the chosen one
          rw [h'] at hm'
          cases acc with
          | none =>
            have hstep : stepBest d none c = some (c.1, c.2, m') := by
              unfold stepBest; rw [hm']
            exact hacclt (c.1, c.2, m') hstep
          | some b =>
            by_cases hlt : m' < b.2.2
            · have hstep : stepBest d (some b) c = some (c.1, c.2, m') := by
                unfold stepBest; rw [hm']; dsimp only; rw [if_pos hlt]
              exact hacclt (c.1, c.2, m') hstep
            · have hstep : stepBest d (some b) c = some b := by
                unfold stepBest; rw [hm']; dsimp only; rw [if_neg hlt]
              calc m < b.2.2 := hacclt b hstep
                _ ≤ m' := not_lt.mp hlt
        · exact hpre c' h' m' hm'

lemma bestSplit_spec (d : List (List ℚ × ℚ)) (fc : ℕ) (f : ℕ) (θ : ℚ)
    (h : bestSplit d fc = some (f, θ)) :
    ∃ m, splitSSE d f θ = some m ∧
      ∃ pre post, candidates d fc = pre ++ (f, θ) :: post ∧
        (∀ c ∈ pre, ∀ m', splitSSE d c.1 c.2 = some m' → m < m') ∧
        (∀ c ∈ post, ∀ m', splitSSE d c.1 c.2 = some m' → m ≤ m') := by
  unfold bestSplit at h
  rw [Option.map_eq_some'] at h
  obtain ⟨b, hb, hfb⟩ := h
  obtain ⟨g, τ, m⟩ := b
  dsimp only at hfb
  injection hfb with h1 h2
  rw [← h1, ← h2]
  rcases foldl_stepBest_some d (candidates d fc) none g τ m hb with ⟨hx, _⟩ | ⟨hx, _, h3⟩
  · cases hx
  · exact ⟨m, hx, h3⟩

/-- C4: whenever `trainRegressionTree` splits a node, the chosen
`(feature, threshold)` pair is a valid candidate (both partitions
nonempty) whose total sum of squared errors around the partition means is
minimal among all candidates — midpoints of adjacent sorted distinct
observed values, scanned feature-major — with ties broken by the earliest
candidate in scan order: every candidate scanned before the chosen one has
strictly larger SSE, every one after has SSE at least as large. -/
theorem tree_split_minimizes_sse (d : List (List ℚ × ℚ)) (depth maxDepth fc f : ℕ)
    (θ : ℚ) (l r : Tree)
    (h : trainRegressionTree d depth maxDepth fc = Tree.split f θ l r) :
    ∃ m, splitSSE d f θ = some m ∧
      ∃ pre post, candidates d fc = pre ++ (f, θ) :: post ∧
        (∀ c ∈ pre, ∀ m', splitSSE d c.1 c.2 = some m' → m < m') ∧
        (∀ c ∈ post, ∀ m', splitSSE d c.1 c.2 = some m' → m ≤ m') := by
  have hbs : bestSplit d fc = some (f, θ) := by
    unfold trainRegressionTree at h
    cases hfuel : maxDepth - depth with
    | zero => rw [hfuel] at h; simp [buildTree] at h
    | succ n =>
      rw [hfuel] at h
      simp only [buildTree] at h
      by_cases h5 : d.length ≤ 5
      · rw [if_pos h5] at h; cases h
      · rw [if_neg h5] at h
        cases hbs : bestSplit d fc with
        | none => rw [hbs] at h; cases h
        | some p =>
          obtain ⟨f', θ'⟩ := p
          rw [hbs] at h
          injection h with hf hθ hl hr
          rw [hf, hθ]
  exact bestSplit_spec d fc f θ hbs

/-- Witness for C4: on the six concrete rows of `d6p` the tree splits at
feature 0 with threshold 1/2, and that candidate is SSE-minimal. -/
theorem tree_split_minimizes_sse_witness :
    ∃ m, splitSSE d6p 0 (1 / 2) = some m ∧
      ∃ pre post, candidates d6p 1 = pre ++ (0, 1 / 2) :: post ∧
        (∀ c ∈ pre, ∀ m', splitSSE d6p c.1 c.2 = some m' → m < m') ∧
        (∀ c ∈ post, ∀ m', splitSSE d6p c.1 c.2 = some m' → m ≤ m') := by
  have h : trainRegressionTree d6p 0 1 1 =
      Tree.split 0 (1 / 2) (Tree.leaf 0) (Tree.leaf 6) := by
    norm_num [trainRegressionTree, buildTree, bestSplit, candidates, midpoints,
      featValues, sortAsc, insertSorted, dedupSorted, splitSSE, stepBest, leafValue,
      d6p, List.range_succ, List.filter, List.foldl, List.getD]
  exact tree_split_minimizes_sse d6p 0 1 1 0 (1 / 2) _ _ h

/-! ## Boosting SSE lemmas -/

lemma sum_sq_expand (ys : List ℚ) (c : ℚ) :
    (ys.map (fun v => (v - c) ^ 2)).sum =
      (ys.map (fun v => v ^ 2)).sum - 2 * c * ys.sum + ys.length * c ^ 2 := by
  induction ys with
  | nil => simp
  | cons a l ih =>
    simp only [List.map_cons, List.sum_cons, List.length_cons, ih]
    push_cast
    ring

lemma sum_map_filter_split {α : Type} (p : α → Bool) (g : α → ℚ) (l : List α) :
    ((l.filter p).map g).sum + ((l.filter (fun a => !p a)).map g).sum = (l.map g).sum := by
  induction l with
  | nil => simp
  | cons a l ih =>
    by_cases h : p a = true
    · rw [List.filter_cons_of_pos h, List.filter_cons_of_neg]
      · simp only [List.map_cons, List.sum_cons]
        rw [← ih]; ring
      · simp [h]
    · have h' : p a = false := by simpa using h
      rw [List.filter_cons_of_neg h, List.filter_cons_of_pos]
      · simp only [List.map_cons, List.sum_cons]
        rw [← ih]; ring
      · simp [h']

lemma mean_shrink_sse (lr : ℚ) (h0 : 0 ≤ lr) (h2 : lr ≤ 2) (ys : List ℚ) :
    (ys.map (fun v => (v - lr * (ys.sum / (max 1 ys.length : ℕ))) ^ 2)).sum ≤
      (ys.map (fun v => v ^ 2)).sum := by
  rw [sum_sq_expand ys (lr * (ys.sum / (max 1 ys.length : ℕ)))]
  rcases Nat.eq_zero_or_pos ys.length with hn | hn
  · have hnil : ys = [] := List.length_eq_zero.mp hn
    subst hnil
    simp
  · have hmax : max 1 ys.length = ys.length := by omega
    rw [hmax]
    have hnpos : (0 : ℚ) < (ys.length : ℚ) := by exact_mod_cast hn
    have key : 2 * (lr * (ys.sum / (ys.length : ℚ))) * ys.sum -
        (ys.length : ℚ) * (lr * (ys.sum / (ys.length : ℚ))) ^ 2 =
        ys.sum ^ 2 * (lr * (2 - lr)) / (ys.length : ℚ) := by
      field_simp
      ring
    have hnon : 0 ≤ ys.sum ^ 2 * (lr * (2 - lr)) / (ys.length : ℚ) :=
      div_nonneg (mul_nonneg (sq_nonneg _) (mul_nonneg h0 (by linarith))) hnpos.le
    linarith

lemma leaf_case_sse_le (lr : ℚ) (h0 : 0 ≤ lr) (h2 : lr ≤ 2) (d : List (List ℚ × ℚ)) :
    (d.map (fun p => (p.2 - lr * leafValue d) ^ 2)).sum ≤ (d.map (fun p => p.2 ^ 2)).sum := by
  have e1 : d.map (fun p => (p.2 - lr * leafValue d) ^ 2) =
      (d.map Prod.snd).map (fun v => (v - lr * leafValue d) ^ 2) := by
    rw [List.map_map]; rfl
  have e2 : d.map (fun p => p.2 ^ 2) = (d.map Prod.snd).map (fun v => v ^ 2) := by
    rw [List.map_map]; rfl
  rw [e1, e2]
  have hlv : leafValue d = (d.map Prod.snd).sum / (max 1 (d.map Prod.snd).length : ℕ) := by
    rw [leafValue, List.length_map]
  rw [hlv]
  exact mean_shrink_sse lr h0 h2 (d.map Prod.snd)

lemma buildTree_sse_le (fc : ℕ) (lr : ℚ) (h0 : 0 ≤ lr) (h2 : lr ≤ 2) :
    ∀ (fuel : ℕ) (d : List (List ℚ × ℚ)),
      (d.map (fun p => (p.2 - lr * predictTree (buildTree fc fuel d) p.1) ^ 2)).sum ≤
        (d.map (fun p => p.2 ^ 2)).sum := by
  intro fuel
  induction fuel with
  | zero =>
    intro d
    simp only [buildTree, predictTree]
    exact leaf_case_sse_le lr h0 h2 d
  | succ n ih =>
    intro d
    by_cases h5 : d.length ≤ 5
    · simp only [buildTree, if_pos h5, predictTree]
      exact leaf_case_sse_le lr h0 h2 d
    · cases hbs : bestSplit d fc with
      | none =>
        simp only [buildTree, if_neg h5, hbs, predictTree]
        exact leaf_case_sse_le lr h0 h2 d
      | some q =>
        obtain ⟨f, θ⟩ := q
        simp only [buildTree, if_neg h5, hbs]
        rw [← sum_map_filter_split (fun p => decide (p.1.getD f 0 ≤ θ))
            (fun p => (p.2 - lr * predictTree
              (Tree.split f θ
                (buildTree fc n (d.filter (fun p => decide (p.1.getD f 0 ≤ θ))))
                (buildTree fc n (d.filter (fun p => !decide (p.1.getD f 0 ≤ θ))))) p.1) ^ 2) d,
          ← sum_map_filter_split (fun p => decide (p.1.getD f 0 ≤ θ))
            (fun p => p.2 ^ 2) d]
        have hmapL : (d.filter (fun p => decide (p.1.getD f 0 ≤ θ))).map
            (fun p => (p.2 - lr * predictTree
              (Tree.split f θ
                (buildTree fc n (d.filter (fun p => decide (p.1.getD f 0 ≤ θ))))
                (buildTree fc n (d.filter (fun p => !decide (p.1.getD f 0 ≤ θ))))) p.1) ^ 2) =
            (d.filter (fun p => decide (p.1.getD f 0 ≤ θ))).map
            (fun p => (p.2 - lr * predictTree
              (buildTree fc n (d.filter (fun p => decide (p.1.getD f 0 ≤ θ)))) p.1) ^ 2) := by
          apply List.map_congr_left
          intro a ha
          have hcond : a.1.getD f 0 ≤ θ := by
            have hm := List.mem_filter.mp ha
            simpa using hm.2
          simp only [predictTree]
          rw [if_pos hcond]
        have hmapR : (d.filter (fun p => !decide (p.1.getD f 0 ≤ θ))).map
            (fun p => (p.2 - lr * predictTree
              (Tree.split f θ
                (buildTree fc n (d.filter (fun p => decide (p.1.getD f 0 ≤ θ))))
                (buildTree fc n (d.filter (fun p => !decide (p.1.getD f 0 ≤ θ))))) p.1) ^ 2) =
            (d.filter (fun p => !decide (p.1.getD f 0 ≤ θ))).map
            (fun p => (p.2 - lr * predictTree
              (buildTree fc n (d.filter (fun p => !decide (p.1.getD f 0 ≤ θ)))) p.1) ^ 2) := by
          apply List.map_congr_left
          intro a ha
          have hcond : ¬ a.1.getD f 0 ≤ θ := by
            have hm := List.mem_filter.mp ha
            simpa using hm.2
          simp only [predictTree]
          rw [if_neg hcond]
        rw [hmapL, hmapR]
        exact add_le_add (ih (d.filter (fun p => decide (p.1.getD f 0 ≤ θ))))
          (ih (d.filter (fun p => !decide (p.1.getD f 0 ≤ θ))))

lemma resid_update (lr : ℚ) (t : Tree) :
    ∀ (X : List (List ℚ)) (y preds : List ℚ),
      y.length = X.length → preds.length = X.length →
      resid y ((preds.zip X).map (fun p => p.1 + lr * predictTree t p.2)) =
        (X.zip (resid y preds)).map (fun p => p.2 - lr * predictTree t p.1) := by
  intro X
  induction X with
  | nil =>
    intro y preds hy hp
    rw [List.length_nil] at hy hp
    rw [List.length_eq_zero.mp hy, List.length_eq_zero.mp hp]
    simp [resid]
  | cons x X ih =>
    intro y preds hy hp
    cases y with
    | nil => simp at hy
    | cons a y =>
      cases preds with
      | nil => simp at hp
      | cons b preds =>
        simp only [resid, List.zip_cons_cons, List.map_cons]
        refine congrArg₂ List.cons (by ring) ?_
        have htail := ih y preds (by simpa using hy) (by simpa using hp)
        simpa [resid] using htail

lemma boostRound_sse_le (X : List (List ℚ)) (y preds : List ℚ) (lr : ℚ) (md fc : ℕ)
    (h0 : 0 ≤ lr) (h2 : lr ≤ 2) (hy : y.length = X.length) (hp : preds.length = X.length) :
    sse y (boostRound X y lr md fc preds).2 ≤ sse y preds := by
  unfold boostRound
  dsimp only
  rw [sse, resid_update lr _ X y preds hy hp, List.map_map]
  have hcomp : ((fun v : ℚ => v ^ 2) ∘ (fun p : List ℚ × ℚ =>
      p.2 - lr * predictTree (trainRegressionTree (X.zip (resid y preds)) 0 md fc) p.1)) =
      fun p : List ℚ × ℚ =>
        (p.2 - lr * predictTree (trainRegressionTree (X.zip (resid y preds)) 0 md fc) p.1) ^ 2 :=
    rfl
  rw [hcomp]
  have hT : ((X.zip (resid y preds)).map (fun p =>
      (p.2 - lr * predictTree (trainRegressionTree (X.zip (resid y preds)) 0 md fc) p.1) ^ 2)).sum ≤
      ((X.zip (resid y preds)).map (fun p => p.2 ^ 2)).sum := by
    have hb := buildTree_sse_le fc lr h0 h2 (md - 0) (X.zip (resid y preds))
    simpa [trainRegressionTree] using hb
  have hlen : (resid y preds).length ≤ X.length := by
    rw [resid]
    simp [hy, hp]
  have hrhs : ((X.zip (resid y preds)).map (fun p => p.2 ^ 2)).sum =
      ((resid y preds).map (fun v => v ^ 2)).sum := by
    calc ((X.zip (resid y preds)).map (fun p => p.2 ^ 2)).sum
        = (((X.zip (resid y preds)).map Prod.snd).map (fun v => v ^ 2)).sum := by
          rw [List.map_map]; rfl
      _ = (((resid y preds)).map (fun v => v ^ 2)).sum := by
          rw [List.map_snd_zip _ _ hlen]
  rw [sse]
  exact le_trans hT (le_of_eq hrhs)

lemma boostRound_preds_length (X : List (List ℚ)) (y preds : List ℚ) (lr : ℚ) (md fc : ℕ)
    (hp : preds.length = X.length) :
    (boostRound X y lr md fc preds).2.length = X.length := by
  unfold boostRound
  dsimp only
  simp [hp]

lemma boostLoop_succ_shift (X : List (List ℚ)) (y : List ℚ) (lr : ℚ) (md fc : ℕ)
    (n : ℕ) (preds : List ℚ) :
    (boostLoop X y lr md fc (n + 1) preds).2 =
      (boostLoop X y lr md fc n (boostRound X y lr md fc preds).2).2 := rfl

lemma boostLoop_sse_step (X : List (List ℚ)) (y : List ℚ) (lr : ℚ) (md fc : ℕ)
    (h0 : 0 ≤ lr) (h2 : lr ≤ 2) (hy : y.length = X.length) :
    ∀ (n : ℕ) (preds : List ℚ), preds.length = X.length →
      sse y (boostLoop X y lr md fc (n + 1) preds).2 ≤
        sse y (boostLoop X y lr md fc n preds).2 := by
  intro n
  induction n with
  | zero =>
    intro preds hp
    rw [boostLoop_succ_shift]
    exact boostRound_sse_le X y preds lr md fc h0 h2 hy hp
  | succ n ih =>
    intro preds hp
    rw [boostLoop_succ_shift, boostLoop_succ_shift X y lr md fc n preds]
    exact ih (boostRound X y lr md fc preds).2 (boostRound_preds_length X y preds lr md fc hp)

/-- C2 counterexample: on the six concrete rows of `data6` with
learningRate = 3 > 0 and maxDepth = 4 > 0, the training SSE after the first
boosting round (216) is strictly larger than the SSE at initialization
(54) — the claim's monotonicity fails for learning rates above 2. -/
theorem boosting_sse_can_increase :
    (0 : ℚ) < 3 ∧ (0 : ℕ) < 4 ∧
    sse (gbdtY data6 "t") (gbdtPredsAfter data6 ["f"] "t" 3 4 1) >
      sse (gbdtY data6 "t") (gbdtPredsAfter data6 ["f"] "t" 3 4 0) := by
  have ef : ∀ a b : ℚ, mkRowFT a b "f" = a := fun a b => rfl
  have et : ∀ a b : ℚ, mkRowFT a b "t" = b := fun a b => rfl
  refine ⟨by norm_num, by norm_num, ?_⟩
  have h0 : sse (gbdtY data6 "t") (gbdtPredsAfter data6 ["f"] "t" 3 4 0) = 54 := by
    norm_num [gbdtPredsAfter, gbdtY, gbdtX, data6, et, ef, numOr, boostLoop, sse, resid,
      List.replicate]
  have h1 : sse (gbdtY data6 "t") (gbdtPredsAfter data6 ["f"] "t" 3 4 1) = 216 := by
    norm_num [gbdtPredsAfter, gbdtY, gbdtX, data6, et, ef, numOr, boostLoop, boostRound,
      sse, resid, List.replicate, trainRegressionTree, buildTree, bestSplit, candidates,
      midpoints, featValues, sortAsc, insertSorted, dedupSorted, splitSSE, stepBest,
      leafValue, predictTree, List.range_succ, List.filter, List.foldl, List.getD]
  rw [h0, h1]
  norm_num

/-- C2 (amended): for every fixed training dataset and maxDepth, and every
learning rate with 0 < learningRate ≤ 2 (the regime in which the leaf-mean
update cannot overshoot; the engine's fixed rate 0.1 lies inside it), the
training SSE of `trainGBDT`'s running predictions is non-increasing from
each boosting round to the next, starting from every prediction at
mean(y). -/
theorem boosting_sse_nonincreasing (data : List DataRow) (fn : List String)
    (tn : String) (lr : ℚ) (md : ℕ) (h0 : 0 < lr) (h2 : lr ≤ 2) (i : ℕ) :
    sse (gbdtY data tn) (gbdtPredsAfter data fn tn lr md (i + 1)) ≤
      sse (gbdtY data tn) (gbdtPredsAfter data fn tn lr md i) := by
  unfold gbdtPredsAfter
  dsimp only
  apply boostLoop_sse_step
  · exact le_of_lt h0
  · exact h2
  · simp [gbdtY, gbdtX]
  · simp [gbdtY, gbdtX]

/-- Witness for C2's amended theorem at the concrete dataset `data6` with
the engine's default learning rate 0.1. -/
theorem boosting_sse_nonincreasing_witness :
    (0 : ℚ) < 1 / 10 ∧ (1 : ℚ) / 10 ≤ 2 ∧
    sse (gbdtY data6 "t") (gbdtPredsAfter data6 ["f"] "t" (1 / 10) 4 1) ≤
      sse (gbdtY data6 "t") (gbdtPredsAfter data6 ["f"] "t" (1 / 10) 4 0) :=
  ⟨by norm_num, by norm_num,
    boosting_sse_nonincreasing data6 ["f"] "t" (1 / 10) 4 (by norm_num) (by norm_num) 0⟩

end MLEngine
